import Mathlib

/-!
Verification of the `auditlogmigratejson` management command
(`src/auditlog/management/commands/auditlogmigratejson.py`).

The command migrates a legacy text column `changes_text` into a structured
JSON column `changes`.  We embed:

* the JSON value model and a JSON-text reader standing in for the Python
  `json.loads` call (covering the JSON fragment used by the audit log: null,
  booleans, integers, plain strings, arrays, objects; a failed read is the
  `ValueError` that `json.loads` raises);
* the dynamic behaviour of the Python operations the command applies to a
  parsed value (`len`, `.keys()`, `x in y`, `y[x]`), including the
  `TypeError` / `AttributeError` they raise on values of the wrong shape;
* the record selector `get_logs`, the per-batch converter
  `_apply_django_migration`, the batch driver `migrate_using_django`, the
  native path `migrate_using_sql`, and the `handle` driver.

The store is a list of `LogEntry` rows; `bulk_update` is modelled as a
by-id rewrite of the `changes` field.  Assigning Python `None` to a Django
`JSONField` stores SQL NULL, hence `storeJson` maps the JSON null to an
absent column value.
-/

/-- JSON values, as produced by `json.loads` (integers only; the audit-log
texts this command migrates never use floats). -/
inductive Json where
  | null
  | bool (b : Bool)
  | num (n : Int)
  | str (s : String)
  | arr (elems : List Json)
  | obj (fields : List (String × Json))

/-- Python exceptions that the migration code can raise. -/
inductive PyErr where
  | valueError
  | typeError
  | attributeError
  | keyError
deriving DecidableEq

/-- Whitespace accepted between JSON tokens. -/
def isWs (c : Char) : Bool :=
  c = ' ' || c = '\t' || c = '\n' || c = '\r'

/-- Drop leading whitespace. -/
def skipWs : List Char → List Char
  | [] => []
  | c :: cs => if isWs c then skipWs cs else c :: cs

/-- Read the body of a JSON string after the opening quote (plain characters
only; escape sequences are outside the modelled fragment). -/
def readStrChars : List Char → Option (List Char × List Char)
  | [] => none
  | c :: cs =>
    if c = '"' then some ([], cs)
    else if c = '\\' then none
    else (readStrChars cs).map (fun r => (c :: r.1, r.2))

/-- Greedily read decimal digits. -/
def readDigits : List Char → (List Nat × List Char)
  | [] => ([], [])
  | c :: cs =>
    if c.isDigit then
      let r := readDigits cs
      ((c.toNat - 48) :: r.1, r.2)
    else ([], c :: cs)

/-- Value of a digit list. -/
def digitsVal (acc : Nat) : List Nat → Nat
  | [] => acc
  | d :: ds => digitsVal (acc * 10 + d) ds

/-- Insert a key into an object, Python-dict style: an existing key keeps its
position and gets the new value, a fresh key is appended. -/
def dictInsert : List (String × Json) → String → Json → List (String × Json)
  | [], k, v => [(k, v)]
  | (k', v') :: rest, k, v =>
    if k' = k then (k', v) :: rest else (k', v') :: dictInsert rest k v

/-- Build a Python dict from parsed fields in textual order (later duplicate
keys overwrite earlier values, as `json.loads` does). -/
def dictOfList (fields : List (String × Json)) : List (String × Json) :=
  fields.foldl (fun d p => dictInsert d p.1 p.2) []

mutual

/-- Read one JSON value; `fuel` bounds the nesting depth. -/
def readVal : Nat → List Char → Option (Json × List Char)
  | 0, _ => none
  | fuel + 1, cs =>
    match skipWs cs with
    | 'n' :: 'u' :: 'l' :: 'l' :: rest => some (.null, rest)
    | 't' :: 'r' :: 'u' :: 'e' :: rest => some (.bool true, rest)
    | 'f' :: 'a' :: 'l' :: 's' :: 'e' :: rest => some (.bool false, rest)
    | '"' :: rest => (readStrChars rest).map (fun r => (.str (String.mk r.1), r.2))
    | '[' :: rest =>
      match skipWs rest with
      | ']' :: rest2 => some (.arr [], rest2)
      | rest2 => (readElems fuel rest2).map (fun r => (.arr r.1, r.2))
    | '{' :: rest =>
      match skipWs rest with
      | '}' :: rest2 => some (.obj [], rest2)
      | rest2 => (readFields fuel rest2).map (fun r => (.obj (dictOfList r.1), r.2))
    | '-' :: rest =>
      match rest with
      | d :: _ =>
        if d.isDigit then
          let r := readDigits rest
          some (.num (-(Int.ofNat (digitsVal 0 r.1))), r.2)
        else none
      | [] => none
    | c :: rest =>
      if c.isDigit then
        let r := readDigits (c :: rest)
        some (.num (Int.ofNat (digitsVal 0 r.1)), r.2)
      else none
    | [] => none

/-- Read array elements after `[` (at least one element). -/
def readElems : Nat → List Char → Option (List Json × List Char)
  | 0, _ => none
  | fuel + 1, cs =>
    match readVal fuel cs with
    | none => none
    | some (v, rest) =>
      match skipWs rest with
      | ',' :: rest2 =>
        match readElems fuel rest2 with
        | none => none
        | some (vs, rest3) => some (v :: vs, rest3)
      | ']' :: rest2 => some ([v], rest2)
      | _ => none

/-- Read object fields after an opening brace (at least one field). -/
def readFields : Nat → List Char → Option (List (String × Json) × List Char)
  | 0, _ => none
  | fuel + 1, cs =>
    match skipWs cs with
    | '"' :: rest =>
      match readStrChars rest with
      | none => none
      | some (key, rest2) =>
        match skipWs rest2 with
        | ':' :: rest3 =>
          match readVal fuel rest3 with
          | none => none
          | some (v, rest4) =>
            match skipWs rest4 with
            | ',' :: rest5 =>
              match readFields fuel rest5 with
              | none => none
              | some (fs, rest6) => some ((String.mk key, v) :: fs, rest6)
            | '}' :: rest5 => some ([(String.mk key, v)], rest5)
            | _ => none
        | _ => none
    | _ => none

end

/-- `json.loads`: read a full JSON document; any failure is the
`ValueError` (`json.JSONDecodeError`) that the command catches. -/
def json_loads (s : String) : Except PyErr Json :=
  match readVal (s.length + 1) s.toList with
  | some (v, rest) => if (skipWs rest).isEmpty then .ok v else .error .valueError
  | none => .error .valueError

/-- Python `len` on a parsed JSON value (`TypeError` on values without a
length, e.g. numbers, booleans, `None`). -/
def pyLen : Json → Except PyErr Nat
  | .str s => .ok s.length
  | .arr xs => .ok xs.length
  | .obj fs => .ok fs.length
  | _ => .error .typeError

/-- Python `.keys()` (only dicts have it; anything else raises
`AttributeError`). -/
def pyKeys : Json → Except PyErr (List String)
  | .obj fs => .ok (fs.map (fun p => p.1))
  | _ => .error .attributeError

/-- Does a JSON value equal the Python string `needle`? (Python `==` between
a `str` and a non-`str` JSON value is `False`.) -/
def isStrEq (needle : String) : Json → Bool
  | .str s => s == needle
  | _ => false

/-- Does `needle` match at the head of `hay`? -/
def subAt : List Char → List Char → Bool
  | [], _ => true
  | _ :: _, [] => false
  | a :: as, b :: bs => a == b && subAt as bs

/-- Substring test on character lists (Python `str.__contains__`). -/
def hasSub (needle : List Char) : List Char → Bool
  | [] => needle.isEmpty
  | b :: bs => subAt needle (b :: bs) || hasSub needle bs

/-- Python `needle in v`: key membership for dicts, element equality for
lists, substring for strings, `TypeError` otherwise. -/
def pyContains (needle : String) : Json → Except PyErr Bool
  | .obj fs => .ok (fs.any (fun p => p.1 == needle))
  | .arr xs => .ok (xs.any (isStrEq needle))
  | .str s => .ok (hasSub needle.toList s.toList)
  | _ => .error .typeError

/-- Python `v[key]` with a string key: dict lookup (`KeyError` when absent);
`TypeError` on lists, strings and scalars. -/
def pyGetItem (key : String) : Json → Except PyErr Json
  | .obj fs =>
    match fs.find? (fun p => p.1 == key) with
    | some p => .ok p.2
    | none => .error .keyError
  | _ => .error .typeError

/-- One `LogEntry` row: an id, the legacy text column `changes_text`
(nullable), and the JSON column `changes` (nullable). -/
structure LogEntry where
  id : Nat
  changes_text : Option String
  changes : Option Json

/-- Assigning a parsed value to the Django `JSONField`: Python `None`
(JSON null) is stored as an absent (SQL NULL) column value. -/
def storeJson : Json → Option Json
  | .null => none
  | v => some v

/-- `get_logs`: `LogEntry.objects.filter(changes_text__isnull=False,
changes__isnull=True).exclude(changes_text__exact="")`. -/
def get_logs (store : List LogEntry) : List LogEntry :=
  (store.filter (fun l => l.changes_text.isSome && l.changes.isNone)).filter
    (fun l => !(l.changes_text == some ""))

/-- The record shape built by the `migrate_m2m` branch: an object mapping
the field name to an object with entries `type` (the literal `m2m`, which
the spec calls collection-membership), `operation` and `objects`. -/
def m2mShape (field_name op : String) (objs : Json) : Json :=
  Json.obj [(field_name,
    Json.obj [("type", Json.str "m2m"), ("operation", Json.str op), ("objects", objs)])]

/-- Lines 103-121 of `_apply_django_migration`: when `migrate_m2m` is set and
the parsed value has exactly one top-level entry, inspect it for the legacy
`Added` / `Removed` markers and rewrite; otherwise pass the value through.
Each Python step can raise, and only the raised exception propagates. -/
def applyM2m (migrate_m2m : Bool) (changes : Json) : Except PyErr Json :=
  if migrate_m2m then
    match pyLen changes with
    | .error e => .error e
    | .ok n =>
      if n = 1 then
        match pyKeys changes with
        | .error e => .error e
        | .ok keys =>
          let field_name := keys.headD ""
          match pyGetItem field_name changes with
          | .error e => .error e
          | .ok change =>
            match pyContains "Added" change with
            | .error e => .error e
            | .ok true =>
              match pyGetItem "Added" change with
              | .error e => .error e
              | .ok v => .ok (m2mShape field_name "add" v)
            | .ok false =>
              match pyContains "Removed" change with
              | .error e => .error e
              | .ok true =>
                match pyGetItem "Removed" change with
                | .error e => .error e
                | .ok v => .ok (m2mShape field_name "delete" v)
              | .ok false => .ok changes
      else .ok changes
  else .ok changes

/-- The per-record converter: `json.loads(log.changes_text)` followed by the
`migrate_m2m` rewrite (lines 102-121). -/
def convert_text (migrate_m2m : Bool) (text : String) : Except PyErr Json :=
  match json_loads text with
  | .ok changes => applyM2m migrate_m2m changes
  | .error e => .error e

/-- Conversion of one row (`json.loads(None)` raises `TypeError`; rows fed by
`get_logs` always carry text). -/
def convertLog (migrate_m2m : Bool) (l : LogEntry) : Except PyErr Json :=
  match l.changes_text with
  | some s => convert_text migrate_m2m s
  | none => .error .typeError

/-- The `for log in _logs` loop of `_apply_django_migration`: successful rows
are collected (with the new `changes` value) in order, a `ValueError` appends
the row id to `errors` and continues, and any other exception aborts the
whole call (nothing is returned or persisted). -/
def convertLogs (migrate_m2m : Bool) : List LogEntry → Except PyErr (List LogEntry × List Nat)
  | [] => .ok ([], [])
  | l :: rest =>
    match convertLog migrate_m2m l with
    | .ok v =>
      match convertLogs migrate_m2m rest with
      | .ok r => .ok ({ l with changes := storeJson v } :: r.1, r.2)
      | .error e => .error e
    | .error PyErr.valueError =>
      match convertLogs migrate_m2m rest with
      | .ok r => .ok (r.1, l.id :: r.2)
      | .error e => .error e
    | .error e => .error e

/-- Effect of `bulk_update` on one stored row: if a converted row with the
same primary key is in the update list, its `changes` value is written. -/
def pUpd (updated : List LogEntry) (l : LogEntry) : LogEntry :=
  match updated.find? (fun u => u.id == l.id) with
  | some u => { l with changes := u.changes }
  | none => l

/-- `LogEntry.objects.bulk_update(updated, fields=["changes"])`: rewrite the
`changes` column of every stored row whose id appears in `updated`. -/
def persistChanges (updated : List LogEntry) (store : List LogEntry) : List LogEntry :=
  store.map (pUpd updated)

/-- Outcome of the batch path: the resulting store, the number of rows
persisted (`len(updated)` summed over batches) and the collected ids of
rows whose text failed to parse. -/
structure MigResult where
  store : List LogEntry
  updated : Nat
  errors : List Nat

/-- `_apply_django_migration(_logs)` applied against a store: convert the
given rows, bulk-update the successes, report the count and the failed ids. -/
def apply_django_migration (migrate_m2m : Bool) (store logs : List LogEntry) :
    Except PyErr MigResult :=
  match convertLogs migrate_m2m logs with
  | .ok r => .ok ⟨persistChanges r.1 store, r.1.length, r.2⟩
  | .error e => .error e

/-- One iteration of the batch loop: `_apply_django_migration(self.get_logs()[:batch_size])`,
accumulating the running totals. -/
def migrateStep (migrate_m2m : Bool) (batch_size : Nat) (acc : MigResult) :
    Except PyErr MigResult :=
  match apply_django_migration migrate_m2m acc.store ((get_logs acc.store).take batch_size) with
  | .ok r => .ok ⟨r.store, acc.updated + r.updated, acc.errors ++ r.errors⟩
  | .error e => .error e

/-- `ceil(n / b)` on naturals, the translation of `math.ceil(logs.count() / batch_size)`. -/
def ceilDiv (n b : Nat) : Nat := (n + b - 1) / b

/-- `migrate_using_django(batch_size, migrate_m2m)` (lines 94-148): with
`batch_size == 0` one pass over the whole pending set, otherwise
`ceil(count / batch_size)` iterations of the batch loop. -/
def migrate_using_django (migrate_m2m : Bool) (batch_size : Nat) (store : List LogEntry) :
    Except PyErr MigResult :=
  if batch_size = 0 then
    apply_django_migration migrate_m2m store (get_logs store)
  else
    (List.range (ceilDiv (get_logs store).length batch_size)).foldlM
      (fun acc _ => migrateStep migrate_m2m batch_size acc) ⟨store, 0, []⟩

/-- Errors that can end a run: an uncaught Python exception from the batch
path, or a `CommandError` from the native path. -/
inductive RunError where
  | python (e : PyErr)
  | command (msg : String)

/-- The `CommandError` message raised for an engine without a native
implementation. -/
def unsupportedMsg (database : String) : String :=
  "Migrating the records using " ++ database ++
    " is not implemented. Run this management command without passing a -d/--database argument."

/-- Is a row selected by the predicate of the native statement
(text column not null, text column not the empty string, JSON column null)? -/
def pendingB (l : LogEntry) : Bool :=
  (l.changes_text.isSome && l.changes.isNone) && !(l.changes_text == some "")

/-- The single `UPDATE ... SET changes = changes_text::jsonb` statement of the
postgres branch: every pending row gets its text parsed in place; a row whose
text is not valid JSON aborts the whole statement (`none`). -/
def postgresBulkUpdate : List LogEntry → Option (List LogEntry × Nat)
  | [] => some ([], 0)
  | l :: rest =>
    if pendingB l then
      match l.changes_text with
      | some s =>
        match json_loads s with
        | .ok v => (postgresBulkUpdate rest).map (fun r => ({ l with changes := some v } :: r.1, r.2 + 1))
        | .error _ => none
      | none => none
    else
      (postgresBulkUpdate rest).map (fun r => (l :: r.1, r.2))

/-- `migrate_using_sql(database)` (lines 150-172): only `postgres` is
implemented; any other engine raises `CommandError` before touching the
store. -/
def migrate_using_sql (database : String) (store : List LogEntry) :
    Except RunError (List LogEntry × Nat) :=
  if database = "postgres" then
    match postgresBulkUpdate store with
    | some r => .ok r
    | none => .error (.command "invalid json in changes_text")
  else
    .error (.command (unsupportedMsg database))

/-- `handle` (lines 50-72): stop after the check when nothing is pending or
`--check` was passed; otherwise dispatch to the native or the batch path.
Returns the final store and the reported updated count. -/
def handle (db : Option String) (batch_size : Nat) (check migrate_m2m : Bool)
    (store : List LogEntry) : Except RunError (List LogEntry × Nat) :=
  if (get_logs store).length = 0 || check then .ok (store, 0)
  else
    match db with
    | some database => migrate_using_sql database store
    | none =>
      match migrate_using_django migrate_m2m batch_size store with
      | .ok r => .ok (r.store, r.updated)
      | .error e => .error (.python e)

def idsOf (store : List LogEntry) : List Nat := store.map (fun l => l.id)

/-- Spec 4,3: "compute ceil(pendingCount / batchSize) iterations", written as
the case split on whether the batch size divides the pending count. -/
def specIterCount (n b : Nat) : Nat :=
  if n % b = 0 then n / b else n / b + 1

/-- Spec 4,3: one iteration "re-queries the first batchSize pending records
(not an offset window), converts them, persists successes, accumulates the
outcome". -/
def specBatchIteration (m2m : Bool) (b : Nat) (st : MigResult) : Except PyErr MigResult :=
  let batch := (get_logs st.store).take b
  match convertLogs m2m batch with
  | .ok r => .ok ⟨persistChanges r.1 st.store, st.updated + r.1.length, st.errors ++ r.2⟩
  | .error e => .error e

/-- Spec 4,3: run the given number of batch iterations in order. -/
def specBatchRun (m2m : Bool) (b : Nat) : Nat → MigResult → Except PyErr MigResult
  | 0, st => .ok st
  | k + 1, st =>
    match specBatchIteration m2m b st with
    | .ok st2 => specBatchRun m2m b k st2
    | .error e => .error e

/-- Spec 4,3: with batchSize 0, "fetch the entire pending set once, convert
every record, persist all successes in one bulk update, return the outcome". -/
def specWholeRun (m2m : Bool) (store : List LogEntry) : Except PyErr MigResult :=
  match convertLogs m2m (get_logs store) with
  | .ok r => .ok ⟨persistChanges r.1 store, r.1.length, r.2⟩
  | .error e => .error e

/-- The in-memory effect of the loop body on one successfully converted row:
`log.changes = changes` with the parsed (and possibly rewritten) value. -/
def updateLog (m2m : Bool) (l : LogEntry) : LogEntry :=
  match convertLog m2m l with
  | .ok v => { l with changes := storeJson v }
  | .error _ => l

/-- A row whose conversion succeeds with a non-null value (so that the
persisted row actually leaves the pending set). -/
def goodLog (m2m : Bool) (l : LogEntry) : Prop :=
  ∃ v, convertLog m2m l = .ok v ∧ v ≠ Json.null

/-- Every pending row of the store converts successfully to a non-null
value. -/
def goodStore (m2m : Bool) (store : List LogEntry) : Prop :=
  ∀ l ∈ get_logs store, goodLog m2m l

/-- The fully migrated store: every pending row rewritten with its converted
value, every other row untouched. -/
def idealFinal (m2m : Bool) (store : List LogEntry) : List LogEntry :=
  store.map (fun l => if pendingB l then updateLog m2m l else l)

/-- Boolean membership in a list of ids. -/
def natMem (a : Nat) : List Nat → Bool
  | [] => false
  | x :: xs => a == x || natMem a xs

/-- Pointwise effect of persisting the converted batch `chunk`: rows whose id
is in the chunk get their converted value, others are untouched. -/
def hFun (m2m : Bool) (chunk : List LogEntry) (l : LogEntry) : LogEntry :=
  if natMem l.id (idsOf chunk) then updateLog m2m l else l

/-- Ids of the rows holding a structured value after a run (`none` when the
run aborted with an uncaught exception). -/
def structuredIds : Except PyErr MigResult → Option (List Nat)
  | .ok r => some (idsOf (r.store.filter (fun l => l.changes.isSome)))
  | .error _ => none

/-- Running the batch path twice in a row on the same store. -/
def runTwice (migrate_m2m : Bool) (batch_size : Nat) (store : List LogEntry) :
    Except PyErr (MigResult × MigResult) :=
  match migrate_using_django migrate_m2m batch_size store with
  | .ok r1 =>
    match migrate_using_django migrate_m2m batch_size r1.store with
    | .ok r2 => .ok (r1, r2)
    | .error e => .error e
  | .error e => .error e

/-- The update count reported by the second of two consecutive runs. -/
def secondRunUpdated (migrate_m2m : Bool) (batch_size : Nat)
    (store : List LogEntry) : Option Nat :=
  match runTwice migrate_m2m batch_size store with
  | .ok r => some r.2.updated
  | .error _ => none

lemma subAt_append_self (xs tail : List Char) : subAt xs (xs ++ tail) = true := by
  induction xs with
  | nil => rfl
  | cons a as ih => simp [subAt, ih]

lemma hasSub_append_self (xs tail : List Char) : hasSub xs (xs ++ tail) = true := by
  cases xs with
  | nil => cases tail <;> simp [hasSub, List.isEmpty, subAt]
  | cons a as =>
    have : (a :: as) ++ tail = a :: (as ++ tail) := rfl
    rw [this, hasSub]
    rw [show a :: (as ++ tail) = (a :: as) ++ tail from rfl, subAt_append_self]
    rfl

lemma hasSub_append_left (pre xs l : List Char) (h : hasSub xs l = true) :
    hasSub xs (pre ++ l) = true := by
  induction pre with
  | nil => exact h
  | cons a as ih => simp [hasSub, ih]

lemma toList_append (a b : String) : (a ++ b).toList = a.toList ++ b.toList := rfl

/-- Claim C7: for every engine name other than the one supported engine, the
native path fails with a `CommandError` whose message names the requested
engine and tells the caller to rerun without the database option, and
it returns before performing any write to the store. -/
theorem C7_unsupported_engine (database : String) (store : List LogEntry)
    (h : database ≠ "postgres") :
    migrate_using_sql database store = .error (.command (unsupportedMsg database)) ∧
    hasSub database.toList (unsupportedMsg database).toList = true ∧
    hasSub "Run this management command without passing a -d/--database argument.".toList
      (unsupportedMsg database).toList = true := by
  refine ⟨by simp [migrate_using_sql, h], ?_, ?_⟩
  · unfold unsupportedMsg
    rw [toList_append, toList_append, List.append_assoc]
    exact hasSub_append_left _ _ _ (hasSub_append_self _ _)
  · unfold unsupportedMsg
    rw [toList_append, toList_append, List.append_assoc]
    refine hasSub_append_left _ _ _ (hasSub_append_left _ _ _ ?_)
    decide

theorem C7_wit :
    migrate_using_sql "mysql" [] = .error (.command (unsupportedMsg "mysql")) ∧
    hasSub "mysql".toList (unsupportedMsg "mysql").toList = true ∧
    hasSub "Run this management command without passing a -d/--database argument.".toList
      (unsupportedMsg "mysql").toList = true :=
  C7_unsupported_engine "mysql" [] (by decide)

/-- Claim C9: with zero pending records, or with the check-only flag set, the
driver stops after the initial check: the store is returned unchanged and the
updated count is 0. -/
theorem C9_check_no_mutation (db : Option String) (batch_size : Nat)
    (check migrate_m2m : Bool) (store : List LogEntry)
    (h : (get_logs store).length = 0 ∨ check = true) :
    handle db batch_size check migrate_m2m store = .ok (store, 0) := by
  unfold handle
  rcases h with h | h <;> simp [h]

theorem C9_wit :
    handle none 500 true false [⟨1, some "a", none⟩] = .ok ([⟨1, some "a", none⟩], 0) :=
  C9_check_no_mutation none 500 true false _ (Or.inr rfl)

/-- Claim C6: a record is selected by `get_logs` iff it is in the store, its
legacy text is present and non-empty, and its structured value is absent.
The selector is a pure function of the store. -/
theorem C6_selector_iff (store : List LogEntry) (l : LogEntry) :
    l ∈ get_logs store ↔
      l ∈ store ∧ (∃ s, l.changes_text = some s ∧ s ≠ "") ∧ l.changes = none := by
  unfold get_logs
  simp only [List.mem_filter, Bool.and_eq_true, Bool.not_eq_true']
  constructor
  · rintro ⟨⟨hmem, hsome, hnone⟩, hne⟩
    refine ⟨hmem, ?_, Option.isNone_iff_eq_none.mp hnone⟩
    rcases Option.isSome_iff_exists.mp hsome with ⟨s, hs⟩
    refine ⟨s, hs, fun hemp => ?_⟩
    rw [hs, hemp] at hne
    simp at hne
  · rintro ⟨hmem, ⟨s, hs, hne⟩, hch⟩
    refine ⟨⟨hmem, by rw [hs]; rfl, by rw [hch]; rfl⟩, ?_⟩
    rw [hs]
    simp [hne]

lemma pyGetItem_head (f : String) (v : Json) (rest : List (String × Json)) :
    pyGetItem f (Json.obj ((f, v) :: rest)) = .ok v := by
  simp [pyGetItem, List.find?]

lemma applyM2m_single (f : String) (v : Json) :
    applyM2m true (Json.obj [(f, v)]) =
      (match pyContains "Added" v with
      | .error e => .error e
      | .ok true =>
        match pyGetItem "Added" v with
        | .error e => .error e
        | .ok a => .ok (m2mShape f "add" a)
      | .ok false =>
        match pyContains "Removed" v with
        | .error e => .error e
        | .ok true =>
          match pyGetItem "Removed" v with
          | .error e => .error e
          | .ok b => .ok (m2mShape f "delete" b)
        | .ok false => .ok (Json.obj [(f, v)])) := by
  simp [applyM2m, pyLen, pyKeys, pyGetItem_head]

/-- Claim C1: in legacy-membership mode (`--migrate-m2m`), a record whose text
parses to an object with exactly one top-level field is rewritten to the
tagged membership shape: an `Added` marker yields operation `add` with the
`Added` value as `objects`, and (when no `Added` marker is present) a
`Removed` marker yields operation `delete` with the `Removed` value.  The
type tag called collection-membership by the spec is the literal `m2m` in
the code. -/
theorem C1_membership_rewrite (text f : String) (v a r : Json)
    (hp : json_loads text = .ok (Json.obj [(f, v)])) :
    (pyContains "Added" v = .ok true → pyGetItem "Added" v = .ok a →
      convert_text true text = .ok (m2mShape f "add" a)) ∧
    (pyContains "Added" v = .ok false → pyContains "Removed" v = .ok true →
      pyGetItem "Removed" v = .ok r →
      convert_text true text = .ok (m2mShape f "delete" r)) := by
  simp only [convert_text, hp]
  rw [applyM2m_single]
  constructor
  · intro hA hG
    rw [hA, hG]
  · intro hA hR hG
    rw [hA, hR, hG]

theorem C1_wit :
    convert_text true "\x7b\"tags\": \x7b\"Added\": [\"x\", \"y\"]\x7d\x7d"
        = .ok (m2mShape "tags" "add" (Json.arr [Json.str "x", Json.str "y"])) ∧
    convert_text true "\x7b\"tags\": \x7b\"Removed\": [\"z\"]\x7d\x7d"
        = .ok (m2mShape "tags" "delete" (Json.arr [Json.str "z"])) :=
  ⟨(C1_membership_rewrite "\x7b\"tags\": \x7b\"Added\": [\"x\", \"y\"]\x7d\x7d" "tags"
      (Json.obj [("Added", Json.arr [Json.str "x", Json.str "y"])])
      (Json.arr [Json.str "x", Json.str "y"]) Json.null rfl).1 rfl rfl,
   (C1_membership_rewrite "\x7b\"tags\": \x7b\"Removed\": [\"z\"]\x7d\x7d" "tags"
      (Json.obj [("Removed", Json.arr [Json.str "z"])])
      Json.null (Json.arr [Json.str "z"]) rfl).2 rfl rfl rfl⟩

/-- Claim C10: in legacy-membership mode, when the value of the single field
contains both an `Added` and a `Removed` marker, only the `Added` rewrite is
applied; the `Removed` marker is ignored. -/
theorem C10_added_priority (text f : String) (v a : Json)
    (hp : json_loads text = .ok (Json.obj [(f, v)]))
    (hA : pyContains "Added" v = .ok true)
    (hR : pyContains "Removed" v = .ok true)
    (hG : pyGetItem "Added" v = .ok a) :
    convert_text true text = .ok (m2mShape f "add" a) := by
  simp only [convert_text, hp]
  rw [applyM2m_single, hA, hG]

theorem C10_wit :
    convert_text true "\x7b\"t\": \x7b\"Added\": [1], \"Removed\": [2]\x7d\x7d"
      = .ok (m2mShape "t" "add" (Json.arr [Json.num 1])) :=
  C10_added_priority "\x7b\"t\": \x7b\"Added\": [1], \"Removed\": [2]\x7d\x7d" "t"
    (Json.obj [("Added", Json.arr [Json.num 1]), ("Removed", Json.arr [Json.num 2])])
    (Json.arr [Json.num 1]) rfl rfl rfl rfl

lemma json_loads_error_eq (s : String) (e : PyErr) (h : json_loads s = .error e) :
    e = PyErr.valueError := by
  unfold json_loads at h
  rcases hv : readVal (s.length + 1) s.toList with _ | p
  · rw [hv] at h
    exact (Except.error.inj h).symm
  · rw [hv] at h
    by_cases hrest : (skipWs p.2).isEmpty
    · simp [hrest] at h
    · simp [hrest] at h
      exact h.symm

/-- Claim C4 counterexample: with legacy-membership mode enabled, the input
`"5"` parses successfully to the number 5, and the subsequent `len(changes)`
raises a `TypeError` that is not caught by the `except ValueError` handler:
an exception other than the parse failure escapes the converter. -/
theorem C4_converter_outcomes_cex :
    convert_text true "5" = .error PyErr.typeError ∧
      PyErr.typeError ≠ PyErr.valueError :=
  ⟨rfl, by decide⟩

lemma pyGetItem_of_any (k : String) (gs : List (String × Json))
    (h : gs.any (fun p => p.1 == k) = true) :
    ∃ w, pyGetItem k (Json.obj gs) = .ok w := by
  have : ∃ x ∈ gs, (x.1 == k) = true := by
    simpa using List.any_eq_true.mp h
  have hsome : (gs.find? (fun p => p.1 == k)).isSome = true := by
    rcases this with ⟨x, hx, hxk⟩
    exact List.find?_isSome.mpr ⟨x, hx, hxk⟩
  rcases Option.isSome_iff_exists.mp hsome with ⟨q, hq⟩
  exact ⟨q.2, by simp [pyGetItem, hq]⟩

/-- Claim C4 amended: with legacy-membership mode disabled, every call to the
converter ends in success or in the parse failure; with the mode enabled the
same holds provided the text parses to an object all of whose top-level
values are themselves objects (otherwise a dynamic `TypeError` or
`AttributeError` can escape, e.g. on input `"5"`). -/
theorem C4_converter_outcomes_amended (s : String) (fs : List (String × Json)) :
    ((∃ v, convert_text false s = .ok v) ∨ convert_text false s = .error PyErr.valueError) ∧
    (json_loads s = .ok (Json.obj fs) → (∀ p ∈ fs, ∃ gs, p.2 = Json.obj gs) →
      ∃ v, convert_text true s = .ok v) := by
  constructor
  · rcases h : json_loads s with e | j
    · right
      rw [json_loads_error_eq s e h] at h
      simp [convert_text, h]
    · exact Or.inl ⟨j, by simp [convert_text, h, applyM2m]⟩
  · intro hp hobj
    simp only [convert_text, hp]
    by_cases hlen : fs.length = 1
    · rcases List.length_eq_one.mp hlen with ⟨p, hfs⟩
      subst hfs
      rcases hobj p (List.mem_singleton.mpr rfl) with ⟨gs, hgs⟩
      have hhead : pyGetItem p.1 (Json.obj [p]) = .ok p.2 := pyGetItem_head p.1 p.2 []
      simp only [applyM2m, pyLen, List.length_singleton, if_true, pyKeys, List.map,
        List.headD, hhead, hgs, pyContains]
      cases hA : gs.any (fun q => q.1 == "Added") with
      | true =>
        rcases pyGetItem_of_any "Added" gs hA with ⟨w, hw⟩
        exact ⟨_, by rw [hw]⟩
      | false =>
        cases hR : gs.any (fun q => q.1 == "Removed") with
        | true =>
          rcases pyGetItem_of_any "Removed" gs hR with ⟨w, hw⟩
          exact ⟨_, by rw [hw]⟩
        | false => exact ⟨_, rfl⟩
    · refine ⟨Json.obj fs, ?_⟩
      simp [applyM2m, pyLen, hlen]

theorem C4_wit :
    ((∃ v, convert_text false "not json" = .ok v) ∨
      convert_text false "not json" = .error PyErr.valueError) ∧
    (∃ v, convert_text true "\x7b\"a\": \x7b\x7d\x7d" = .ok v) :=
  ⟨(C4_converter_outcomes_amended "not json" []).1,
   (C4_converter_outcomes_amended "\x7b\"a\": \x7b\x7d\x7d" [("a", Json.obj [])]).2 rfl
     (fun p hp => ⟨[], by rw [List.mem_singleton.mp hp]⟩)⟩

lemma nodup_id_inj (logs : List LogEntry) (hnd : (idsOf logs).Nodup)
    (l1 l2 : LogEntry) (h1 : l1 ∈ logs) (h2 : l2 ∈ logs) (h : l1.id = l2.id) :
    l1 = l2 := by
  induction logs with
  | nil => cases h1
  | cons a t ih =>
    rw [idsOf, List.map_cons, List.nodup_cons] at hnd
    rcases List.mem_cons.mp h1 with rfl | h1t <;>
      rcases List.mem_cons.mp h2 with rfl | h2t
    · rfl
    · exact absurd (h ▸ List.mem_map_of_mem (fun l => l.id) h2t) hnd.1
    · exact absurd (h ▸ List.mem_map_of_mem (fun l => l.id) h1t) hnd.1
    · exact ih hnd.2 h1t h2t

lemma convertLogs_err_mem (m2m : Bool) (logs : List LogEntry) (upd : List LogEntry)
    (errs : List Nat) (h : convertLogs m2m logs = .ok (upd, errs))
    (l : LogEntry) (hl : l ∈ logs) (hbad : convertLog m2m l = .error PyErr.valueError) :
    l.id ∈ errs := by
  induction logs generalizing upd errs with
  | nil => cases hl
  | cons a t ih =>
    rw [convertLogs] at h
    rcases hc : convertLog m2m a with e | v
    · rw [hc] at h
      cases e with
      | valueError =>
        rcases hr : convertLogs m2m t with e2 | r <;> rw [hr] at h
        · cases h
        · cases h
          rcases List.mem_cons.mp hl with rfl | hlt
          · exact List.mem_cons_self _ _
          · exact List.mem_cons_of_mem _ (ih _ _ hr hlt)
      | typeError => cases h
      | attributeError => cases h
      | keyError => cases h
    · rw [hc] at h
      rcases hr : convertLogs m2m t with e2 | r <;> rw [hr] at h
      · cases h
      · cases h
        rcases List.mem_cons.mp hl with rfl | hlt
        · rw [hc] at hbad; cases hbad
        · exact ih _ _ hr hlt

lemma convertLogs_upd_src (m2m : Bool) (logs : List LogEntry) (upd : List LogEntry)
    (errs : List Nat) (h : convertLogs m2m logs = .ok (upd, errs)) :
    ∀ u ∈ upd, ∃ l, l ∈ logs ∧ (∃ v, convertLog m2m l = .ok v) ∧ u.id = l.id := by
  induction logs generalizing upd errs with
  | nil =>
    rw [convertLogs] at h
    cases h
    intro u hu
    cases hu
  | cons a t ih =>
    rw [convertLogs] at h
    rcases hc : convertLog m2m a with e | v
    · rw [hc] at h
      cases e with
      | valueError =>
        rcases hr : convertLogs m2m t with e2 | r <;> rw [hr] at h
        · cases h
        · cases h
          intro u hu
          rcases ih _ _ hr u hu with ⟨l, hl, hok, hid⟩
          exact ⟨l, List.mem_cons_of_mem _ hl, hok, hid⟩
      | typeError => cases h
      | attributeError => cases h
      | keyError => cases h
    · rw [hc] at h
      rcases hr : convertLogs m2m t with e2 | r <;> rw [hr] at h
      · cases h
      · cases h
        intro u hu
        rcases List.mem_cons.mp hu with rfl | hut
        · exact ⟨a, List.mem_cons_self _ _, ⟨v, hc⟩, rfl⟩
        · rcases ih _ _ hr u hut with ⟨l, hl, hok, hid⟩
          exact ⟨l, List.mem_cons_of_mem _ hl, hok, hid⟩

lemma convertLogs_ok_mem (m2m : Bool) (logs : List LogEntry) (upd : List LogEntry)
    (errs : List Nat) (h : convertLogs m2m logs = .ok (upd, errs)) :
    ∀ l ∈ logs, (∃ v, convertLog m2m l = .ok v) → l.id ∈ idsOf upd := by
  induction logs generalizing upd errs with
  | nil => intro l hl; cases hl
  | cons a t ih =>
    rw [convertLogs] at h
    rcases hc : convertLog m2m a with e | v
    · rw [hc] at h
      cases e with
      | valueError =>
        rcases hr : convertLogs m2m t with e2 | r <;> rw [hr] at h
        · cases h
        · cases h
          intro l hl hok
          rcases List.mem_cons.mp hl with rfl | hlt
          · rcases hok with ⟨w, hw⟩; rw [hc] at hw; cases hw
          · exact ih _ _ hr l hlt hok
      | typeError => cases h
      | attributeError => cases h
      | keyError => cases h
    · rw [hc] at h
      rcases hr : convertLogs m2m t with e2 | r <;> rw [hr] at h
      · cases h
      · cases h
        intro l hl hok
        rcases List.mem_cons.mp hl with rfl | hlt
        · exact List.mem_cons_self _ _
        · exact List.mem_cons_of_mem _ (ih _ _ hr l hlt hok)

lemma pUpd_id (upd : List LogEntry) (l : LogEntry) : (pUpd upd l).id = l.id := by
  unfold pUpd
  cases upd.find? (fun u => u.id == l.id) <;> rfl

lemma pUpd_eq_self (upd : List LogEntry) (l : LogEntry)
    (h : upd.find? (fun u => u.id == l.id) = none) : pUpd upd l = l := by
  unfold pUpd
  rw [h]

lemma persist_find_eq (upd store : List LogEntry) (i : Nat)
    (h : ∀ u ∈ upd, u.id ≠ i) :
    (persistChanges upd store).find? (fun l => l.id == i)
      = store.find? (fun l => l.id == i) := by
  induction store with
  | nil => rfl
  | cons a t ih =>
    show ((pUpd upd a) :: persistChanges upd t).find? (fun l => l.id == i)
        = (a :: t).find? (fun l => l.id == i)
    by_cases hai : a.id = i
    · have hfind : upd.find? (fun u => u.id == a.id) = none :=
        List.find?_eq_none.mpr (fun u hu => by simp [hai, h u hu])
      rw [pUpd_eq_self _ _ hfind]
      have hb : (a.id == i) = true := by simp [hai]
      simp [List.find?, hb]
    · have hb : (a.id == i) = false := by simp [hai]
      simp [List.find?, pUpd_id, hb, ih]

/-- Claim C5: within one batch, a record whose legacy text fails to parse is
skipped, not persisted: its id is collected into the error list, no persisted
row carries its id, its stored row is unchanged by the bulk update (so it
remains pending), and every successfully converting record of the batch is
still persisted (the loop continues past the failure). -/
theorem C5_parse_failure_isolated (migrate_m2m : Bool)
    (logs upd store : List LogEntry) (errs : List Nat) (bad : LogEntry)
    (hmem : bad ∈ logs)
    (hbad : convertLog migrate_m2m bad = .error PyErr.valueError)
    (hnd : (idsOf logs).Nodup)
    (hrun : convertLogs migrate_m2m logs = .ok (upd, errs)) :
    bad.id ∈ errs ∧
    (∀ u ∈ upd, u.id ≠ bad.id) ∧
    (persistChanges upd store).find? (fun l => l.id == bad.id)
        = store.find? (fun l => l.id == bad.id) ∧
    (∀ l ∈ logs, (∃ v, convertLog migrate_m2m l = .ok v) → l.id ∈ idsOf upd) := by
  have hupd : ∀ u ∈ upd, u.id ≠ bad.id := by
    intro u hu hid
    rcases convertLogs_upd_src migrate_m2m logs upd errs hrun u hu with ⟨l, hl, ⟨v, hv⟩, hid2⟩
    have : l = bad := nodup_id_inj logs hnd l bad hl hmem (by rw [← hid2, hid])
    rw [this, hbad] at hv
    cases hv
  exact ⟨convertLogs_err_mem migrate_m2m logs upd errs hrun bad hmem hbad,
    hupd,
    persist_find_eq upd store bad.id hupd,
    convertLogs_ok_mem migrate_m2m logs upd errs hrun⟩

theorem C5_wit :
    ((1 : Nat) ∈ [1] ∧
    (∀ u ∈ [(⟨2, some "\x7b\"a\": 1\x7d", some (Json.obj [("a", Json.num 1)])⟩ : LogEntry)],
        u.id ≠ 1) ∧
    (persistChanges [⟨2, some "\x7b\"a\": 1\x7d", some (Json.obj [("a", Json.num 1)])⟩]
        [⟨1, some "x", none⟩, ⟨2, some "\x7b\"a\": 1\x7d", none⟩]).find?
          (fun l => l.id == 1)
      = ([⟨1, some "x", none⟩, ⟨2, some "\x7b\"a\": 1\x7d", none⟩] :
          List LogEntry).find? (fun l => l.id == 1) ∧
    (∀ l ∈ ([⟨1, some "x", none⟩, ⟨2, some "\x7b\"a\": 1\x7d", none⟩] : List LogEntry),
      (∃ v, convertLog false l = .ok v) →
        l.id ∈ idsOf [⟨2, some "\x7b\"a\": 1\x7d", some (Json.obj [("a", Json.num 1)])⟩])) :=
  C5_parse_failure_isolated false
    [⟨1, some "x", none⟩, ⟨2, some "\x7b\"a\": 1\x7d", none⟩]
    [⟨2, some "\x7b\"a\": 1\x7d", some (Json.obj [("a", Json.num 1)])⟩]
    [⟨1, some "x", none⟩, ⟨2, some "\x7b\"a\": 1\x7d", none⟩]
    [1] ⟨1, some "x", none⟩
    (List.mem_cons_self _ _) rfl (by decide) rfl

lemma except_bind_ok {α β : Type} (a : α) (f : α → Except PyErr β) :
    (Except.ok a >>= f) = f a := rfl

lemma except_bind_err {α β : Type} (e : PyErr) (f : α → Except PyErr β) :
    ((Except.error e : Except PyErr α) >>= f) = Except.error e := rfl

lemma migrateStep_eq (m2m : Bool) (b : Nat) (st : MigResult) :
    migrateStep m2m b st = specBatchIteration m2m b st := by
  unfold migrateStep apply_django_migration specBatchIteration
  cases h : convertLogs m2m ((get_logs st.store).take b) <;> simp only [h]

lemma foldlM_const_eq_specBatchRun (m2m : Bool) (b : Nat) (l : List Nat) (st : MigResult) :
    List.foldlM (fun acc (_ : Nat) => migrateStep m2m b acc) st l
      = specBatchRun m2m b l.length st := by
  induction l generalizing st with
  | nil => rfl
  | cons a t ih =>
    rw [List.foldlM_cons, List.length_cons, migrateStep_eq]
    rcases h : specBatchIteration m2m b st with e | st2
    · rw [except_bind_err, specBatchRun, h]
    · rw [except_bind_ok, specBatchRun, h, ih st2]

lemma ceilDiv_eq_specIterCount (n b : Nat) (hb : 0 < b) :
    ceilDiv n b = specIterCount n b := by
  rcases Nat.eq_zero_or_pos n with rfl | hn
  · unfold ceilDiv specIterCount
    simp [Nat.div_eq_of_lt (by omega : b - 1 < b)]
  · have h1 : n + b - 1 = (n - 1) + b := by omega
    have hq := Nat.div_add_mod n b
    unfold ceilDiv specIterCount
    rw [h1, Nat.add_div_right _ hb]
    by_cases hr : n % b = 0
    · rw [if_pos hr]
      have hqpos : 0 < n / b := by
        rcases Nat.eq_zero_or_pos (n / b) with h0 | h
        · rw [h0, Nat.mul_zero] at hq; omega
        · exact h
      have hsplit : b * (n / b) = b * (n / b - 1) + b := by
        conv_lhs => rw [show n / b = (n / b - 1) + 1 from by omega]
        rw [Nat.mul_succ]
      have h3 : n - 1 = (b - 1) + b * (n / b - 1) := by omega
      rw [h3, Nat.add_mul_div_left _ _ hb, Nat.div_eq_of_lt (by omega : b - 1 < b)]
      omega
    · rw [if_neg hr]
      have hmod : n % b < b := Nat.mod_lt n hb
      have h3 : n - 1 = (n % b - 1) + b * (n / b) := by omega
      rw [h3, Nat.add_mul_div_left _ _ hb,
        Nat.div_eq_of_lt (by omega : n % b - 1 < b)]
      omega

/-- Claim C2: for batchSize > 0 the batch path is exactly
ceil(pendingCount / batchSize) iterations (pendingCount measured once,
before the first iteration), each iteration re-querying the first batchSize
currently-pending records and persisting the successes of that iteration; for
batchSize = 0 it is one whole-set pass persisted in a single bulk update. -/
theorem C2_batch_structure (migrate_m2m : Bool) (b : Nat) (store : List LogEntry)
    (hb : 0 < b) :
    migrate_using_django migrate_m2m b store
        = specBatchRun migrate_m2m b
            (specIterCount (get_logs store).length b) ⟨store, 0, []⟩ ∧
    migrate_using_django migrate_m2m 0 store = specWholeRun migrate_m2m store := by
  constructor
  · unfold migrate_using_django
    rw [if_neg (by omega : ¬b = 0), foldlM_const_eq_specBatchRun,
      List.length_range, ceilDiv_eq_specIterCount _ _ hb]
  · unfold migrate_using_django specWholeRun apply_django_migration
    rw [if_pos rfl]

theorem C2_wit :
    migrate_using_django false 2 [⟨1, some "x", none⟩, ⟨2, some "\x7b\"a\": 1\x7d", none⟩]
      = specBatchRun false 2
          (specIterCount
            (get_logs [⟨1, some "x", none⟩, ⟨2, some "\x7b\"a\": 1\x7d", none⟩]).length 2)
          ⟨[⟨1, some "x", none⟩, ⟨2, some "\x7b\"a\": 1\x7d", none⟩], 0, []⟩ :=
  (C2_batch_structure false 2 _ (by decide)).1

lemma natMem_iff (a : Nat) (xs : List Nat) : natMem a xs = true ↔ a ∈ xs := by
  induction xs with
  | nil => simp [natMem]
  | cons x t ih => simp [natMem, ih, List.mem_cons]

lemma get_logs_eq_filter (store : List LogEntry) :
    get_logs store = store.filter pendingB := by
  unfold get_logs
  rw [List.filter_filter]
  exact List.filter_congr (fun l _ => by unfold pendingB; rw [Bool.and_comm])

lemma updateLog_id (m2m : Bool) (l : LogEntry) : (updateLog m2m l).id = l.id := by
  unfold updateLog
  cases convertLog m2m l <;> rfl

lemma updateLog_not_pending (m2m : Bool) (l : LogEntry) (h : goodLog m2m l) :
    pendingB (updateLog m2m l) = false := by
  rcases h with ⟨v, hv, hnn⟩
  have hs : (storeJson v).isNone = false := by
    cases v with
    | null => exact absurd rfl hnn
    | bool b => rfl
    | num n => rfl
    | str s => rfl
    | arr xs => rfl
    | obj fs => rfl
  unfold updateLog
  rw [hv]
  unfold pendingB
  simp [hs]

lemma hFun_id (m2m : Bool) (chunk : List LogEntry) (l : LogEntry) :
    (hFun m2m chunk l).id = l.id := by
  unfold hFun
  by_cases h : natMem l.id (idsOf chunk) = true <;> simp [h, updateLog_id]

lemma convertLogs_all_ok (m2m : Bool) (logs : List LogEntry)
    (h : ∀ l ∈ logs, ∃ v, convertLog m2m l = .ok v) :
    convertLogs m2m logs = .ok (logs.map (updateLog m2m), []) := by
  induction logs with
  | nil => rfl
  | cons a t ih =>
    rcases h a (List.mem_cons_self _ _) with ⟨v, hv⟩
    rw [convertLogs, hv, ih (fun l hl => h l (List.mem_cons_of_mem _ hl)), List.map_cons]
    unfold updateLog
    rw [hv]

lemma find?_first_eq {α : Type} (p : α → Bool) (xs : List α) (y : α)
    (hy : y ∈ xs) (hp : p y = true) (huniq : ∀ x ∈ xs, p x = true → x = y) :
    xs.find? p = some y := by
  induction xs with
  | nil => cases hy
  | cons a t ih =>
    by_cases ha : p a = true
    · rw [List.find?_cons_of_pos _ ha, huniq a (List.mem_cons_self _ _) ha]
    · rw [List.find?_cons_of_neg _ ha]
      rcases List.mem_cons.mp hy with rfl | hyt
      · exact absurd hp ha
      · exact ih hyt (fun x hx hpx => huniq x (List.mem_cons_of_mem _ hx) hpx)

lemma mem_chunk_of_natMem (chunk store : List LogEntry) (hnd : (idsOf store).Nodup)
    (hsub : ∀ c ∈ chunk, c ∈ store) (l : LogEntry) (hl : l ∈ store)
    (hc : natMem l.id (idsOf chunk) = true) : l ∈ chunk := by
  rcases List.mem_map.mp ((natMem_iff _ _).mp hc) with ⟨c, hcmem, hcid⟩
  have heq : c = l := nodup_id_inj store hnd c l (hsub c hcmem) hl hcid
  exact heq ▸ hcmem

lemma persist_chunk_eq_map (m2m : Bool) (chunk store : List LogEntry)
    (hnd : (idsOf store).Nodup) (hsub : ∀ c ∈ chunk, c ∈ store) :
    persistChanges (chunk.map (updateLog m2m)) store = store.map (hFun m2m chunk) := by
  unfold persistChanges
  apply List.map_congr_left
  intro l hl
  unfold pUpd hFun
  by_cases hc : natMem l.id (idsOf chunk) = true
  · rw [if_pos hc]
    have hlc : l ∈ chunk := mem_chunk_of_natMem chunk store hnd hsub l hl hc
    have hfind : (chunk.map (updateLog m2m)).find? (fun u => u.id == l.id)
        = some (updateLog m2m l) := by
      apply find?_first_eq
      · exact List.mem_map_of_mem _ hlc
      · rw [updateLog_id]; simp
      · intro x hx hpx
        rcases List.mem_map.mp hx with ⟨c, hcmem, rfl⟩
        rw [updateLog_id] at hpx
        have : c = l := nodup_id_inj store hnd c l (hsub c hcmem) hl (by simpa using hpx)
        rw [this]
    rw [hfind]
    unfold updateLog
    cases convertLog m2m l <;> rfl
  · rw [if_neg hc]
    have hfind : (chunk.map (updateLog m2m)).find? (fun u => u.id == l.id) = none := by
      apply List.find?_eq_none.mpr
      intro u hu
      rcases List.mem_map.mp hu with ⟨c, hcmem, rfl⟩
      rw [updateLog_id]
      intro hbeq
      apply hc
      apply (natMem_iff _ _).mpr
      have : c.id = l.id := by simpa using hbeq
      exact this ▸ List.mem_map_of_mem (fun x => x.id) hcmem
    rw [hfind]

lemma getLogs_map_hFun (m2m : Bool) (chunk store : List LogEntry)
    (hnd : (idsOf store).Nodup)
    (hsub : ∀ c ∈ chunk, c ∈ store)
    (hgoodc : ∀ c ∈ chunk, goodLog m2m c) :
    get_logs (store.map (hFun m2m chunk))
      = (get_logs store).filter (fun l => !natMem l.id (idsOf chunk)) := by
  rw [get_logs_eq_filter, get_logs_eq_filter, List.filter_map, List.filter_filter]
  have hcong : List.filter (pendingB ∘ hFun m2m chunk) store
      = List.filter (fun l => !natMem l.id (idsOf chunk) && pendingB l) store := by
    apply List.filter_congr
    intro l hl
    simp only [Function.comp]
    unfold hFun
    by_cases hc : natMem l.id (idsOf chunk) = true
    · rw [if_pos hc, hc]
      have hlc : l ∈ chunk := mem_chunk_of_natMem chunk store hnd hsub l hl hc
      rw [updateLog_not_pending m2m l (hgoodc l hlc)]
      simp
    · have hcf : natMem l.id (idsOf chunk) = false := by
        cases hnm : natMem l.id (idsOf chunk)
        · rfl
        · exact absurd hnm hc
      rw [if_neg hc, hcf]
      simp
  rw [hcong]
  have hid : ∀ l ∈ List.filter (fun l => !natMem l.id (idsOf chunk) && pendingB l) store,
      hFun m2m chunk l = l := by
    intro l hl
    rcases List.mem_filter.mp hl with ⟨-, hb⟩
    simp only [Bool.and_eq_true, Bool.not_eq_true'] at hb
    unfold hFun
    rw [if_neg (by rw [hb.1]; exact Bool.false_ne_true)]
  rw [List.map_congr_left hid]
  simp

lemma filter_not_in_take (p : List LogEntry) (b : Nat) (hnd : (idsOf p).Nodup) :
    p.filter (fun l => !natMem l.id (idsOf (p.take b))) = p.drop b := by
  have hids : idsOf p = idsOf (p.take b) ++ idsOf (p.drop b) := by
    unfold idsOf
    rw [← List.map_append, List.take_append_drop]
  rw [hids] at hnd
  rcases List.nodup_append.mp hnd with ⟨-, -, hdisj⟩
  have htk : ∀ a ∈ p.take b, a.id ∈ idsOf (p.take b) :=
    fun a ha => List.mem_map_of_mem (fun x => x.id) ha
  have hdr : ∀ a ∈ p.drop b, a.id ∉ idsOf (p.take b) :=
    fun a ha hmem => hdisj hmem (List.mem_map_of_mem (fun x => x.id) ha)
  revert htk hdr
  generalize idsOf (p.take b) = ids
  intro htk hdr
  conv_lhs => rw [← List.take_append_drop b p]
  rw [List.filter_append]
  have h1 : (p.take b).filter (fun l => !natMem l.id ids) = [] := by
    apply List.filter_eq_nil_iff.mpr
    intro a ha
    have : natMem a.id ids = true := (natMem_iff _ _).mpr (htk a ha)
    simp [this]
  have h2 : (p.drop b).filter (fun l => !natMem l.id ids) = p.drop b := by
    apply List.filter_eq_self.mpr
    intro a ha
    have : natMem a.id ids = false := by
      cases hnm : natMem a.id ids
      · rfl
      · exact absurd ((natMem_iff _ _).mp hnm) (hdr a ha)
    simp [this]
  rw [h1, h2, List.nil_append]

lemma ideal_map_hFun (m2m : Bool) (chunk store : List LogEntry)
    (hnd : (idsOf store).Nodup)
    (hsub : ∀ c ∈ chunk, c ∈ store)
    (hpend : ∀ c ∈ chunk, pendingB c = true)
    (hgoodc : ∀ c ∈ chunk, goodLog m2m c) :
    idealFinal m2m (store.map (hFun m2m chunk)) = idealFinal m2m store := by
  unfold idealFinal
  rw [List.map_map]
  apply List.map_congr_left
  intro l hl
  simp only [Function.comp]
  unfold hFun
  by_cases hc : natMem l.id (idsOf chunk) = true
  · rw [if_pos hc]
    have hlc : l ∈ chunk := mem_chunk_of_natMem chunk store hnd hsub l hl hc
    rw [updateLog_not_pending m2m l (hgoodc l hlc), hpend l hlc]
    simp
  · rw [if_neg hc]

lemma idsOf_map_hFun (m2m : Bool) (chunk store : List LogEntry) :
    idsOf (store.map (hFun m2m chunk)) = idsOf store := by
  unfold idsOf
  rw [List.map_map]
  apply List.map_congr_left
  intro l _
  simp [Function.comp, hFun_id]

lemma idealFinal_eq_self (m2m : Bool) (store : List LogEntry)
    (h : get_logs store = []) : idealFinal m2m store = store := by
  rw [get_logs_eq_filter] at h
  have hnp := List.filter_eq_nil_iff.mp h
  unfold idealFinal
  have : ∀ l ∈ store, (if pendingB l then updateLog m2m l else l) = l :=
    fun l hl => if_neg (hnp l hl)
  rw [List.map_congr_left this]
  simp

lemma get_logs_idealFinal (m2m : Bool) (store : List LogEntry)
    (hgood : goodStore m2m store) : get_logs (idealFinal m2m store) = [] := by
  rw [get_logs_eq_filter]
  apply List.filter_eq_nil_iff.mpr
  intro a ha
  rcases List.mem_map.mp ha with ⟨l, hl, rfl⟩
  by_cases hp : pendingB l = true
  · rw [if_pos hp]
    have hlp : l ∈ get_logs store := by
      rw [get_logs_eq_filter]
      exact List.mem_filter.mpr ⟨hl, hp⟩
    rw [updateLog_not_pending m2m l (hgood l hlp)]
    exact Bool.false_ne_true
  · rw [if_neg hp]
    exact hp

lemma idsOf_idealFinal (m2m : Bool) (store : List LogEntry) :
    idsOf (idealFinal m2m store) = idsOf store := by
  unfold idealFinal idsOf
  rw [List.map_map]
  apply List.map_congr_left
  intro l _
  simp only [Function.comp]
  by_cases hp : pendingB l = true
  · rw [if_pos hp, updateLog_id]
  · rw [if_neg hp]

lemma ceilDiv_succ (n b : Nat) (hn : 0 < n) (hb : 0 < b) :
    ceilDiv n b = ceilDiv (n - b) b + 1 := by
  by_cases h : n ≤ b
  · have h1 : n - b = 0 := by omega
    unfold ceilDiv
    rw [h1, show n + b - 1 = (n - 1) + b from by omega, Nat.add_div_right _ hb,
      Nat.div_eq_of_lt (show n - 1 < b from by omega),
      Nat.div_eq_of_lt (show 0 + b - 1 < b from by omega)]
  · unfold ceilDiv
    rw [show n + b - 1 = ((n - b) + b - 1) + b from by omega, Nat.add_div_right _ hb]

lemma specBatchRun_all_good (m2m : Bool) (b : Nat) (hb : 0 < b) :
    ∀ n store u e, (idsOf store).Nodup → goodStore m2m store →
      (get_logs store).length = n →
      specBatchRun m2m b (ceilDiv n b) ⟨store, u, e⟩
        = .ok ⟨idealFinal m2m store, u + n, e⟩ := by
  intro n
  induction n using Nat.strong_induction_on with
  | _ n ih =>
    intro store u e hnd hgood hlen
    rcases Nat.eq_zero_or_pos n with rfl | hn
    · have hc : ceilDiv 0 b = 0 := by
        unfold ceilDiv
        exact Nat.div_eq_of_lt (by omega)
      rw [hc, specBatchRun,
        idealFinal_eq_self m2m store (List.length_eq_zero.mp hlen), Nat.add_zero]
    · have hceil : ceilDiv n b = ceilDiv (n - b) b + 1 := ceilDiv_succ n b hn hb
      rw [hceil, specBatchRun]
      have hsubp : ∀ c ∈ (get_logs store).take b, c ∈ get_logs store :=
        fun c hc => List.take_subset _ _ hc
      have hsub : ∀ c ∈ (get_logs store).take b, c ∈ store := by
        intro c hc
        have := hsubp c hc
        rw [get_logs_eq_filter] at this
        exact (List.mem_filter.mp this).1
      have hpend : ∀ c ∈ (get_logs store).take b, pendingB c = true := by
        intro c hc
        have := hsubp c hc
        rw [get_logs_eq_filter] at this
        exact (List.mem_filter.mp this).2
      have hgoodc : ∀ c ∈ (get_logs store).take b, goodLog m2m c :=
        fun c hc => hgood c (hsubp c hc)
      have hallok : ∀ l ∈ (get_logs store).take b, ∃ v, convertLog m2m l = .ok v :=
        fun l hl => (hgoodc l hl).elim (fun v hv => ⟨v, hv.1⟩)
      have hiter : specBatchIteration m2m b ⟨store, u, e⟩
          = .ok ⟨store.map (hFun m2m ((get_logs store).take b)),
              u + ((get_logs store).take b).length, e⟩ := by
        simp only [specBatchIteration]
        simp only [convertLogs_all_ok m2m _ hallok]
        rw [persist_chunk_eq_map m2m _ store hnd hsub, List.length_map, List.append_nil]
      simp only [hiter]
      have hlogs1 : get_logs (store.map (hFun m2m ((get_logs store).take b)))
          = (get_logs store).drop b := by
        rw [getLogs_map_hFun m2m _ store hnd hsub hgoodc]
        apply filter_not_in_take
        rw [get_logs_eq_filter]
        exact List.Nodup.sublist (List.Sublist.map _ (List.filter_sublist store)) hnd
      have hnd1 : (idsOf (store.map (hFun m2m ((get_logs store).take b)))).Nodup := by
        rw [idsOf_map_hFun]
        exact hnd
      have hgood1 : goodStore m2m (store.map (hFun m2m ((get_logs store).take b))) := by
        intro l hl
        rw [hlogs1] at hl
        exact hgood l (List.drop_subset _ _ hl)
      have hlen1 : (get_logs (store.map (hFun m2m ((get_logs store).take b)))).length
          = n - b := by
        rw [hlogs1, List.length_drop, hlen]
      rw [ih (n - b) (by omega) _ (u + ((get_logs store).take b).length) e hnd1 hgood1 hlen1,
        ideal_map_hFun m2m _ store hnd hsub hpend hgoodc]
      have htake : ((get_logs store).take b).length = min b n := by
        rw [List.length_take, hlen]
      have harith : u + ((get_logs store).take b).length + (n - b) = u + n := by
        rw [htake]
        omega
      rw [harith]

lemma migrate_all_good (m2m : Bool) (bs : Nat) (store : List LogEntry)
    (hnd : (idsOf store).Nodup) (hgood : goodStore m2m store) :
    migrate_using_django m2m bs store
      = .ok ⟨idealFinal m2m store, (get_logs store).length, []⟩ := by
  rcases Nat.eq_zero_or_pos bs with rfl | hbs
  · unfold migrate_using_django apply_django_migration
    rw [if_pos rfl]
    have hallok : ∀ l ∈ get_logs store, ∃ v, convertLog m2m l = .ok v :=
      fun l hl => (hgood l hl).elim (fun v hv => ⟨v, hv.1⟩)
    simp only [convertLogs_all_ok m2m _ hallok]
    have hsub : ∀ c ∈ get_logs store, c ∈ store := by
      intro c hc
      rw [get_logs_eq_filter] at hc
      exact (List.mem_filter.mp hc).1
    rw [persist_chunk_eq_map m2m _ store hnd hsub, List.length_map]
    have hfull : store.map (hFun m2m (get_logs store)) = idealFinal m2m store := by
      unfold idealFinal
      apply List.map_congr_left
      intro l hl
      unfold hFun
      by_cases hp : pendingB l = true
      · have hlp : l ∈ get_logs store := by
          rw [get_logs_eq_filter]
          exact List.mem_filter.mpr ⟨hl, hp⟩
        have hnm : natMem l.id (idsOf (get_logs store)) = true :=
          (natMem_iff _ _).mpr
            (show l.id ∈ idsOf (get_logs store) from
              List.mem_map_of_mem (fun x => x.id) hlp)
        rw [if_pos hnm, if_pos hp]
      · have hnm : natMem l.id (idsOf (get_logs store)) = false := by
          cases hc : natMem l.id (idsOf (get_logs store))
          · rfl
          · exfalso
            have hlc := mem_chunk_of_natMem (get_logs store) store hnd hsub l hl hc
            rw [get_logs_eq_filter] at hlc
            exact hp (List.mem_filter.mp hlc).2
        rw [if_neg (by rw [hnm]; exact Bool.false_ne_true), if_neg hp]
    rw [hfull]
  · unfold migrate_using_django
    rw [if_neg (by omega : ¬bs = 0), foldlM_const_eq_specBatchRun, List.length_range]
    have := specBatchRun_all_good m2m bs hbs (get_logs store).length store 0 [] hnd hgood rfl
    rw [this, Nat.zero_add]

/-- Claim C3 counterexample: on a two-record store whose first record holds
malformed text and whose second record holds valid text, batch size 1
re-queries the same failing head record in both iterations and never reaches
record 2, while batch size 0 converts record 2: the final structured sets
differ, so batch-size invariance fails as stated. -/
theorem C3_batch_invariance_cex :
    (structuredIds (migrate_using_django false 1
        [⟨1, some "x", none⟩, ⟨2, some "\x7b\"a\": 1\x7d", none⟩]) = some [] ∧
     structuredIds (migrate_using_django false 0
        [⟨1, some "x", none⟩, ⟨2, some "\x7b\"a\": 1\x7d", none⟩]) = some [2]) ∧
    some ([] : List Nat) ≠ some [2] :=
  ⟨⟨rfl, rfl⟩, by decide⟩

/-- Claim C3 amended: for a pending set in which the conversion of every
pending record succeeds with a non-null value (and row ids are distinct), the
batch path yields the same outcome for every batch size — in particular for
1, 3 and 0: all pending records end up structured and no failures are
reported. -/
theorem C3_batch_invariance_amended (migrate_m2m : Bool) (b1 b2 : Nat)
    (store : List LogEntry) (hnd : (idsOf store).Nodup)
    (hgood : goodStore migrate_m2m store) :
    migrate_using_django migrate_m2m b1 store
      = migrate_using_django migrate_m2m b2 store := by
  rw [migrate_all_good migrate_m2m b1 store hnd hgood,
    migrate_all_good migrate_m2m b2 store hnd hgood]

theorem C3_wit :
    migrate_using_django false 1 [⟨1, some "\x7b\x7d", none⟩, ⟨2, some "[0]", none⟩]
      = migrate_using_django false 0
          [⟨1, some "\x7b\x7d", none⟩, ⟨2, some "[0]", none⟩] :=
  C3_batch_invariance_amended false 1 0 _ (by decide)
    (by
      intro l hl
      have hlogs : get_logs [⟨1, some "\x7b\x7d", none⟩, ⟨2, some "[0]", none⟩]
          = [⟨1, some "\x7b\x7d", none⟩, ⟨2, some "[0]", none⟩] := rfl
      rw [hlogs] at hl
      simp only [List.mem_cons, List.mem_singleton, List.not_mem_nil, or_false] at hl
      rcases hl with rfl | rfl
      · exact ⟨Json.obj [], rfl, fun h => Json.noConfusion h⟩
      · exact ⟨Json.arr [Json.num 0], rfl, fun h => Json.noConfusion h⟩)

/-- Claim C8 counterexample: (i) a record whose text is `"null"` parses to
the null value, which is stored as an absent column value, so the record is
still pending and is re-converted (and re-counted) by the second run;
(ii) with batch size 2 and a failing record at the head of the pending set,
the fixed iteration budget of the first run is exhausted re-querying the
failing record, leaving a convertible record pending, which the second run then
updates.  In both cases the second-run update count is 1, not 0. -/
theorem C8_idempotence_cex :
    (secondRunUpdated false 0 [⟨1, some "null", none⟩] = some 1 ∧
    secondRunUpdated false 2
      [⟨1, some "x", none⟩, ⟨2, some "\x7b\"a\": 1\x7d", none⟩,
       ⟨3, some "\x7b\"b\": 2\x7d", none⟩, ⟨4, some "\x7b\"c\": 3\x7d", none⟩]
      = some 1) ∧
    some (1 : Nat) ≠ some 0 :=
  ⟨⟨rfl, rfl⟩, by decide⟩

/-- Claim C8 amended: when the conversion of every pending record succeeds
with a non-null value (and row ids are distinct), the first run migrates every
pending record, so running the batch path twice yields a second-run update
count of 0, for every batch size. -/
theorem C8_idempotence_amended (migrate_m2m : Bool) (batch_size : Nat)
    (store : List LogEntry) (hnd : (idsOf store).Nodup)
    (hgood : goodStore migrate_m2m store) :
    secondRunUpdated migrate_m2m batch_size store = some 0 := by
  have h1 := migrate_all_good migrate_m2m batch_size store hnd hgood
  have hlogs : get_logs (idealFinal migrate_m2m store) = [] :=
    get_logs_idealFinal migrate_m2m store hgood
  have hnd2 : (idsOf (idealFinal migrate_m2m store)).Nodup := by
    rw [idsOf_idealFinal]
    exact hnd
  have hgood2 : goodStore migrate_m2m (idealFinal migrate_m2m store) := by
    intro l hl
    rw [hlogs] at hl
    cases hl
  have h2 := migrate_all_good migrate_m2m batch_size
    (idealFinal migrate_m2m store) hnd2 hgood2
  rw [hlogs, List.length_nil] at h2
  unfold secondRunUpdated runTwice
  simp only [h1, h2]

theorem C8_wit : secondRunUpdated false 500 [⟨7, some "[true]", none⟩] = some 0 :=
  C8_idempotence_amended false 500 _ (by decide)
    (by
      intro l hl
      have hlogs : get_logs [⟨7, some "[true]", none⟩] = [⟨7, some "[true]", none⟩] := rfl
      rw [hlogs] at hl
      simp only [List.mem_singleton] at hl
      subst hl
      exact ⟨Json.arr [Json.bool true], rfl, fun h => Json.noConfusion h⟩)

